import Mathlib

/-!
Verification of the GF(16) arithmetic core of `src/finite_field.rs`
(scalar field operations and the dynamically-sized matrix/vector algebra
built on them), as a shallow embedding over `Nat` and `List`.

`u8` cells are modelled as natural numbers; every Rust `u8` multiplication
is taken modulo 256 (wrapping semantics).  On the documented domain
`[0,15]` no intermediate ever reaches 256, so the reduction is inert there.
-/

namespace MayoFF

/-- Embedding of `neg` (`finite_field.rs`): negation in GF(2^n) is the identity. -/
def neg (x : Nat) : Nat := x

/-- Embedding of `add` (`finite_field.rs`): GF(16) addition is XOR. -/
def add (x y : Nat) : Nat := x ^^^ y

/-- Embedding of `sub` (`finite_field.rs`): GF(16) subtraction is XOR. -/
def sub (x y : Nat) : Nat := x ^^^ y

/-- Embedding of `mul` (`finite_field.rs`): carryless multiply of the four
bits of `x` against `y`, then a single shift-and-XOR fold of bits 4..7
using `t^4 = t + 1`, then masking to the low 4 bits. -/
def mul (x y : Nat) : Nat :=
  let res := ((x &&& 1) * y) % 256
  let res := res ^^^ (((x &&& 2) * y) % 256)
  let res := res ^^^ (((x &&& 4) * y) % 256)
  let res := res ^^^ (((x &&& 8) * y) % 256)
  let first_4_bits := res &&& 0xf0
  let overflow_bits := (first_4_bits >>> 4) ^^^ (first_4_bits >>> 3)
  (res ^^^ overflow_bits) &&& 0x0f

/-- Embedding of `inv` (`finite_field.rs`): `x^14` by the squaring chain
`x^2, x^4, x^6, x^8, x^14`, five multiplications. -/
def inv (x : Nat) : Nat :=
  let x2 := mul x x
  let x4 := mul x2 x2
  let x6 := mul x2 x4
  let x8 := mul x4 x4
  let x14 := mul x8 x6
  x14

/-- Embedding of `div` (`finite_field.rs`): multiply by the inverse. -/
def div (x y : Nat) : Nat := mul x (inv y)

/-! ### Specification-side definitions

These follow the spec's words, not the source, and exist to be compared
with the embedded operations. -/

/-- Spec-side carryless (GF(2)) polynomial product of a 4-bit `x` with `y`:
for each set bit `i` of `x`, XOR in `y` shifted by `i`. -/
def clmul (x y : Nat) : Nat :=
  (List.range 4).foldl (fun acc i => acc ^^^ (if x.testBit i then y <<< i else 0)) 0

/-- Spec-side reduction of a degree-≤6 GF(2) polynomial modulo
`f(t) = t^4 + t + 1` (bit pattern `0x13`), by long division from the top bit. -/
def polyModF (r : Nat) : Nat :=
  let r := if r.testBit 6 then r ^^^ (0x13 <<< 2) else r
  let r := if r.testBit 5 then r ^^^ (0x13 <<< 1) else r
  if r.testBit 4 then r ^^^ 0x13 else r

/-- Spec-side canonical GF(16) product: carryless product reduced mod `f`. -/
def gf16MulSpec (x y : Nat) : Nat := polyModF (clmul x y)

/-- Spec-side field power built by iterated field multiplication. -/
def gfpow (x : Nat) : Nat → Nat
  | 0 => 1
  | n + 1 => mul (gfpow x n) x

/-! ### Matrix layer

A dynamically-sized matrix is a `List (List Nat)` of rows.  `cols m`
models the Rust `m[0].len()` (meaningful when `m` is non-empty), and
`ent m i j` models the indexing `m[i][j]` (in-bounds whenever the callers'
preconditions hold; out-of-bounds indexing is accounted for separately by
the `_run` wrappers below). -/

/-- Column count read off the first row, as the Rust code's `m[0].len()`. -/
def cols (m : List (List Nat)) : Nat := (m.headD []).length

/-- Element access `m[i][j]`, totalised with default 0. -/
def ent (m : List (List Nat)) (i j : Nat) : Nat := (m.getD i []).getD j 0

/-- Embedding of the body of `matrix_add`: row-wise, element-wise `add`
via zipping (exactly the source's `zip`/`map` structure, which truncates
to the shorter operand). -/
def matrix_add (a b : List (List Nat)) : List (List Nat) :=
  List.zipWith (fun ra rb => List.zipWith add ra rb) a b

/-- Embedding of the body of `matrix_sub`: as `matrix_add` but with `sub`. -/
def matrix_sub (a b : List (List Nat)) : List (List Nat) :=
  List.zipWith (fun ra rb => List.zipWith sub ra rb) a b

/-- Embedding of the body of `matrix_neg`: element-wise `neg`. -/
def matrix_neg (a : List (List Nat)) : List (List Nat) :=
  a.map (fun row => row.map neg)

/-- Entry `(i, j)` of the product, as the source accumulates it:
`result[i][j] = add(result[i][j], mul(a[i][k], b[k][j]))` for
`k = 0 .. cols a`, starting from 0. -/
def mmEntry (a b : List (List Nat)) (i j : Nat) : Nat :=
  (List.range (cols a)).foldl (fun acc k => add acc (mul (ent a i k) (ent b k j))) 0

/-- Embedding of the body of `matrix_mul`: a `rows a × cols b` result whose
entries are the `k`-accumulations above, rows outermost. -/
def matrix_mul (a b : List (List Nat)) : List (List Nat) :=
  (List.range a.length).map (fun i => (List.range (cols b)).map (fun j => mmEntry a b i j))

/-- Embedding of the body of `vector_matrix_mul`: output column `j` is the
`i`-accumulation of `mul(vec[i], matrix[i][j])`, `j` outer, `i` inner. -/
def vector_matrix_mul (v : List Nat) (m : List (List Nat)) : List Nat :=
  (List.range (cols m)).map
    (fun j => (List.range m.length).foldl (fun acc i => add acc (mul (v.getD i 0) (ent m i j))) 0)

/-- Embedding of the body of `matrix_vector_mul`: output row `i` is the
`k`-accumulation of `mul(matrix[i][k], vec[k])`. -/
def matrix_vector_mul (m : List (List Nat)) (v : List Nat) : List Nat :=
  (List.range m.length).map
    (fun i => (List.range (cols m)).foldl (fun acc k => add acc (mul (ent m i k) (v.getD k 0))) 0)

/-! ### Panic model

The Rust functions can abort in two observably different ways: a failed
`assert_eq!` and an out-of-bounds index (`m[0]` on an empty vec, or an
in-body index on a ragged matrix).  Each `_run` wrapper mirrors its Rust
function's exact evaluation order of checks and accesses, returning
`Except.error` for a panic and `Except.ok` with the computed value
otherwise. -/

/-- The two panic classes the Rust code can raise. -/
inductive PanicKind where
  | assertFail : PanicKind
  | indexOOB : PanicKind
deriving DecidableEq, Repr

/-- `true` iff the run ended in a panic. -/
def isPanic : Except PanicKind α → Bool
  | .error _ => true
  | .ok _ => false

/-- `matrix_add` with its panic behaviour: row-count assert, then `a[0]` /
`b[0]` (out of bounds when empty), then the column assert; the body zips and
cannot index out of bounds. -/
def matrix_add_run (a b : List (List Nat)) : Except PanicKind (List (List Nat)) :=
  if a.length ≠ b.length then .error .assertFail
  else if a.isEmpty then .error .indexOOB
  else if cols a ≠ cols b then .error .assertFail
  else .ok (matrix_add a b)

/-- `matrix_sub` with its panic behaviour (same checks as `matrix_add`). -/
def matrix_sub_run (a b : List (List Nat)) : Except PanicKind (List (List Nat)) :=
  if a.length ≠ b.length then .error .assertFail
  else if a.isEmpty then .error .indexOOB
  else if cols a ≠ cols b then .error .assertFail
  else .ok (matrix_sub a b)

/-- `matrix_mul` with its panic behaviour: `a[0]` inside the assert (OOB when
`a` is empty), the assert itself, `b[0]` for `cols_b` (OOB when `b` is
empty), then the body's `a[i][k]` / `b[k][j]` accesses, which index out of
bounds exactly when some accessed row is shorter than the row-0 width
(accesses happen only when `cols b > 0`). -/
def matrix_mul_run (a b : List (List Nat)) : Except PanicKind (List (List Nat)) :=
  if a.isEmpty then .error .indexOOB
  else if cols a ≠ b.length then .error .assertFail
  else if b.isEmpty then .error .indexOOB
  else if 0 < cols b ∧ (a.any (fun r => r.length < cols a) ∨ b.any (fun r => r.length < cols b))
    then .error .indexOOB
  else .ok (matrix_mul a b)

/-- `vector_matrix_mul` with its panic behaviour: length assert, then
`matrix[0]` (OOB when the matrix is empty), then the body's `matrix[i][j]`
accesses (`vec[i]` is always in bounds once the assert passed). -/
def vector_matrix_mul_run (v : List Nat) (m : List (List Nat)) : Except PanicKind (List Nat) :=
  if v.length ≠ m.length then .error .assertFail
  else if m.isEmpty then .error .indexOOB
  else if 0 < cols m ∧ m.any (fun r => r.length < cols m) then .error .indexOOB
  else .ok (vector_matrix_mul v m)

/-- `matrix_vector_mul` with its panic behaviour: `matrix[0]` is indexed
inside the assert before anything else (OOB when the matrix is empty), then
the assert, then the body's `matrix[i][k]` accesses. -/
def matrix_vector_mul_run (m : List (List Nat)) (v : List Nat) : Except PanicKind (List Nat) :=
  if m.isEmpty then .error .indexOOB
  else if cols m ≠ v.length then .error .assertFail
  else if 0 < cols m ∧ m.any (fun r => r.length < cols m) then .error .indexOOB
  else .ok (matrix_vector_mul m v)

/-! ### Well-formedness predicates -/

/-- The data-model invariant: all rows have the length of row 0. -/
def rect (m : List (List Nat)) : Prop := ∀ r ∈ m, r.length = cols m

/-- All entries are field elements, i.e. in `[0, 15]`. -/
def matBounded (m : List (List Nat)) : Prop := ∀ r ∈ m, ∀ v ∈ r, v < 16

/-- All entries of a vector are field elements. -/
def vecBounded (v : List Nat) : Prop := ∀ x ∈ v, x < 16

instance (m : List (List Nat)) : Decidable (rect m) := by
  unfold rect; infer_instance

instance (m : List (List Nat)) : Decidable (matBounded m) := by
  unfold matBounded; infer_instance

instance (v : List Nat) : Decidable (vecBounded v) := by
  unfold vecBounded; infer_instance

/-- Spec-side matrix-product entry: the sum `Σ_k mul(a[i][k], b[k][j])`
written as a right fold of `add` over the mapped index list, to be compared
with the source's left-accumulation `mmEntry`. -/
def mmSpecEntry (a b : List (List Nat)) (i j : Nat) : Nat :=
  ((List.range (cols a)).map (fun k => mul (ent a i k) (ent b k j))).foldr add 0

/-- GF(16) sum (XOR fold) of a list, the shape every accumulation loop takes. -/
def gfSum (l : List Nat) : Nat := l.foldl add 0

/-! ### Scalar lemmas -/

theorem xor_left_comm (a b c : Nat) : a ^^^ (b ^^^ c) = b ^^^ (a ^^^ c) := by
  rw [← Nat.xor_assoc, Nat.xor_comm a b, Nat.xor_assoc]

theorem mul_lt16 (x y : Nat) : mul x y < 16 :=
  Nat.lt_succ_of_le (Nat.and_le_right)

theorem add_lt16 : ∀ x < 16, ∀ y < 16, add x y < 16 := by
  intro x hx y hy
  exact Nat.xor_lt_two_pow (n := 4) hx hy

theorem mul_zero16 (x : Nat) : mul x 0 = 0 := by
  simp [mul]

theorem zero_mul16 (y : Nat) : mul 0 y = 0 := by
  simp [mul]

theorem mul_add_left16 : ∀ x < 16, ∀ y < 16, ∀ z < 16,
    mul x (add y z) = add (mul x y) (mul x z) := by decide

theorem mul_add_right16 : ∀ x < 16, ∀ y < 16, ∀ z < 16,
    mul (add x y) z = add (mul x z) (mul y z) := by decide

theorem mul_assoc16 : ∀ x < 16, ∀ y < 16, ∀ z < 16,
    mul (mul x y) z = mul x (mul y z) := by decide

/-! ### Sum lemmas -/

theorem foldl_add_eq (l : List Nat) : ∀ x : Nat, l.foldl add x = add x (gfSum l) := by
  induction l with
  | nil => intro x; simp [gfSum, add]
  | cons a l ih =>
    intro x
    have h1 : gfSum (a :: l) = add a (gfSum l) := by
      show List.foldl add (add 0 a) l = add a (gfSum l)
      rw [show add 0 a = a from Nat.zero_xor a, ih a]
    rw [List.foldl_cons, ih (add x a), h1]
    simp only [add, Nat.xor_assoc]

theorem gfSum_nil : gfSum [] = 0 := rfl

theorem gfSum_cons (a : Nat) (l : List Nat) : gfSum (a :: l) = add a (gfSum l) := by
  show List.foldl add (add 0 a) l = add a (gfSum l)
  rw [show add 0 a = a from Nat.zero_xor a, foldl_add_eq l a]

theorem gfSum_foldr (l : List Nat) : gfSum l = l.foldr add 0 := by
  induction l with
  | nil => rfl
  | cons a l ih => rw [gfSum_cons, List.foldr_cons, ih]

theorem gfSum_lt16 (l : List Nat) (h : ∀ v ∈ l, v < 16) : gfSum l < 16 := by
  induction l with
  | nil => decide
  | cons a l ih =>
    rw [gfSum_cons]
    exact add_lt16 a (h a (by simp)) (gfSum l) (ih (fun v hv => h v (by simp [hv])))

theorem gfSum_map_add (l : List Nat) (f g : Nat → Nat) :
    gfSum (l.map fun k => add (f k) (g k)) = add (gfSum (l.map f)) (gfSum (l.map g)) := by
  induction l with
  | nil => simp only [List.map_nil]; decide
  | cons a l ih =>
    simp only [List.map_cons, gfSum_cons, ih]
    simp only [add, Nat.xor_assoc]
    rw [xor_left_comm (g a)]

theorem gfSum_map_zero (l : List Nat) : gfSum (l.map fun _ => (0 : Nat)) = 0 := by
  induction l with
  | nil => rfl
  | cons a l ih => rw [List.map_cons, gfSum_cons, ih]; decide

theorem gfSum_swap (l1 l2 : List Nat) (h : Nat → Nat → Nat) :
    gfSum (l1.map fun i => gfSum (l2.map fun j => h i j)) =
      gfSum (l2.map fun j => gfSum (l1.map fun i => h i j)) := by
  induction l1 with
  | nil =>
    simp only [List.map_nil, gfSum_nil]
    exact (gfSum_map_zero l2).symm
  | cons a l1 ih =>
    simp only [List.map_cons, gfSum_cons, ih]
    exact (gfSum_map_add l2 (fun j => h a j) (fun j => gfSum (l1.map fun i => h i j))).symm

theorem mul_gfSum_left (x : Nat) (hx : x < 16) (l : List Nat) (hl : ∀ v ∈ l, v < 16) :
    mul x (gfSum l) = gfSum (l.map (mul x)) := by
  induction l with
  | nil => exact mul_zero16 x
  | cons a l ih =>
    rw [gfSum_cons, List.map_cons, gfSum_cons,
      mul_add_left16 x hx a (hl a (by simp)) (gfSum l)
        (gfSum_lt16 l (fun v hv => hl v (by simp [hv]))),
      ih (fun v hv => hl v (by simp [hv]))]

theorem gfSum_mul_right (z : Nat) (hz : z < 16) (l : List Nat) (hl : ∀ v ∈ l, v < 16) :
    mul (gfSum l) z = gfSum (l.map fun v => mul v z) := by
  induction l with
  | nil => exact zero_mul16 z
  | cons a l ih =>
    rw [gfSum_cons, List.map_cons, gfSum_cons,
      mul_add_right16 a (hl a (by simp)) (gfSum l)
        (gfSum_lt16 l (fun v hv => hl v (by simp [hv]))) z hz,
      ih (fun v hv => hl v (by simp [hv]))]

/-! ### Entry and shape lemmas -/

theorem getD_lt16 (l : List Nat) (h : ∀ v ∈ l, v < 16) : ∀ j : Nat, l.getD j 0 < 16 := by
  induction l with
  | nil => intro j; simp [List.getD]
  | cons a l ih =>
    intro j
    cases j with
    | zero => simpa [List.getD] using h a (by simp)
    | succ j =>
      simp only [List.getD_cons_succ]
      exact ih (fun v hv => h v (by simp [hv])) j

theorem row_mem_or_nil (m : List (List Nat)) : ∀ i : Nat, m.getD i [] ∈ m ∨ m.getD i [] = [] := by
  induction m with
  | nil => intro i; right; simp [List.getD]
  | cons r t ih =>
    intro i
    cases i with
    | zero => left; simp [List.getD]
    | succ i =>
      simp only [List.getD_cons_succ]
      rcases ih i with h | h
      · left; exact List.mem_cons_of_mem r h
      · right; exact h

theorem ent_lt16 (m : List (List Nat)) (hm : matBounded m) (i j : Nat) : ent m i j < 16 := by
  show (m.getD i []).getD j 0 < 16
  rcases row_mem_or_nil m i with h | h
  · exact getD_lt16 _ (hm _ h) j
  · rw [h]; simp [List.getD]

theorem length_matrix_mul (a b : List (List Nat)) : (matrix_mul a b).length = a.length := by
  simp [matrix_mul]

theorem cols_matrix_mul (a b : List (List Nat)) (ha : a ≠ []) :
    cols (matrix_mul a b) = cols b := by
  cases a with
  | nil => exact absurd rfl ha
  | cons r t =>
    simp [cols, matrix_mul, List.range_succ_eq_map]

theorem ent_matrix_mul (a b : List (List Nat)) (i j : Nat) (hi : i < a.length)
    (hj : j < cols b) : ent (matrix_mul a b) i j = mmEntry a b i j := by
  have hlen : i < (matrix_mul a b).length := by
    simpa [matrix_mul] using hi
  show (List.getD (matrix_mul a b) i []).getD j 0 = mmEntry a b i j
  rw [List.getD_eq_getElem _ _ hlen]
  have hrow : (matrix_mul a b)[i] = (List.range (cols b)).map (fun j => mmEntry a b i j) := by
    simp [matrix_mul]
  rw [hrow]
  have hj2 : j < ((List.range (cols b)).map (fun j => mmEntry a b i j)).length := by simpa
  rw [List.getD_eq_getElem _ _ hj2]
  simp

theorem mmEntry_eq_gfSum (a b : List (List Nat)) (i j : Nat) :
    mmEntry a b i j = gfSum ((List.range (cols a)).map fun k => mul (ent a i k) (ent b k j)) := by
  show _ = ((List.range (cols a)).map fun k => mul (ent a i k) (ent b k j)).foldl add 0
  rw [List.foldl_map]
  rfl

theorem mmEntry_lt16 (a b : List (List Nat)) (i j : Nat) : mmEntry a b i j < 16 := by
  rw [mmEntry_eq_gfSum]
  refine gfSum_lt16 _ ?_
  intro v hv
  rcases List.mem_map.mp hv with ⟨k, _, rfl⟩
  exact mul_lt16 _ _

/-! ### Claim theorems -/

/-- Claim C1: for all `x, y` in `[0,15]`, `mul x y` is the carryless polynomial
product of `x` and `y` reduced modulo `f(t) = t^4 + t + 1`, and in particular
`mul 0x2 0x2 = 0x4`, `mul 0xC 0x3 = 0x7`, `mul 0xC 0x7 = 0x2`,
`mul 0xF 0xF = 0xA`. -/
theorem C1_mul_is_gf16_product :
    (∀ x < 16, ∀ y < 16, mul x y = gf16MulSpec x y) ∧
    mul 0x2 0x2 = 0x4 ∧ mul 0xC 0x3 = 0x7 ∧ mul 0xC 0x7 = 0x2 ∧ mul 0xF 0xF = 0xA := by
  decide

/-- Witness for C1 at a concrete input. -/
theorem C1_witness : 3 < 16 ∧ 7 < 16 ∧ mul 3 7 = gf16MulSpec 3 7 :=
  ⟨by decide, by decide, C1_mul_is_gf16_product.1 3 (by decide) 7 (by decide)⟩

/-- Claim C2: `inv` (the five-multiplication squaring chain
`x^2, x^4, x^6, x^8, x^14` of the source) computes `x^14`; for every nonzero
`x` in `[1,15]`, `mul x (inv x) = 1`; and the listed inverse-table entries
hold. -/
theorem C2_inv_is_x14 :
    (∀ x < 16, inv x = gfpow x 14) ∧
    (∀ x < 16, x ≠ 0 → mul x (inv x) = 1) ∧
    inv 0x2 = 0x9 ∧ inv 0x3 = 0xE ∧ inv 0x4 = 0xD ∧
    inv 0x5 = 0xB ∧ inv 0x6 = 0x7 ∧ inv 0x8 = 0xF := by
  decide

/-- Witness for C2 at a concrete input. -/
theorem C2_witness : 3 < 16 ∧ 3 ≠ 0 ∧ inv 3 = gfpow 3 14 ∧ mul 3 (inv 3) = 1 :=
  ⟨by decide, by decide, C2_inv_is_x14.1 3 (by decide),
    C2_inv_is_x14.2.1 3 (by decide) (by decide)⟩

/-- Claim C5: `inv 0 = 0` and `div x 0 = 0` for every `x` in `[0,15]`; both
are ordinary return values of the total embedded functions, not failures. -/
theorem C5_zero_conventions :
    inv 0 = 0 ∧ ∀ x < 16, div x 0 = 0 := by
  decide

/-- Witness for C5 at a concrete input. -/
theorem C5_witness : 12 < 16 ∧ div 12 0 = 0 :=
  ⟨by decide, C5_zero_conventions.2 12 (by decide)⟩

/-- Claim C6: over `[0,15]`, `add` and `mul` are commutative and associative,
`add x 0 = x`, `mul x 1 = x`, `add x x = 0`, `mul` distributes over `add`,
and `sub` agrees with `add`. -/
theorem C6_field_axioms :
    (∀ x < 16, ∀ y < 16, add x y = add y x) ∧
    (∀ x < 16, ∀ y < 16, ∀ z < 16, add (add x y) z = add x (add y z)) ∧
    (∀ x < 16, ∀ y < 16, mul x y = mul y x) ∧
    (∀ x < 16, ∀ y < 16, ∀ z < 16, mul (mul x y) z = mul x (mul y z)) ∧
    (∀ x < 16, add x 0 = x) ∧
    (∀ x < 16, mul x 1 = x) ∧
    (∀ x < 16, add x x = 0) ∧
    (∀ x < 16, ∀ y < 16, ∀ z < 16, mul x (add y z) = add (mul x y) (mul x z)) ∧
    (∀ x < 16, ∀ y < 16, sub x y = add x y) := by
  refine ⟨by decide, by decide, by decide, mul_assoc16, by decide, by decide, by decide,
    mul_add_left16, by decide⟩

/-- Witness for C6 at a concrete input. -/
theorem C6_witness : 3 < 16 ∧ 5 < 16 ∧ 9 < 16 ∧
    mul 3 (add 5 9) = add (mul 3 5) (mul 3 9) :=
  ⟨by decide, by decide, by decide,
    C6_field_axioms.2.2.2.2.2.2.2.1 3 (by decide) 5 (by decide) 9 (by decide)⟩

/-- A rectangular matrix has no row shorter than its row-0 width, so the
body-access guard of the `_run` wrappers is off. -/
theorem rect_any_short_false (m : List (List Nat)) (hm : rect m) :
    m.any (fun r => r.length < cols m) = false := by
  rw [List.any_eq_false]
  intro r hr
  simp [hm r hr]

/-- Claim C3: for non-empty rectangular conformant `a, b`, `matrix_mul`
returns (without panicking) a `rows a × cols b` matrix whose `(i,j)` entry
is the `add`-accumulation over `k < cols a` of `mul (a[i][k]) (b[k][j])`;
in particular `matrix_mul [[2],[8]] [[3,1]] = [[6,2],[11,8]]`. -/
theorem C3_matrix_mul_spec :
    (∀ a b : List (List Nat), rect a → rect b → a ≠ [] → b ≠ [] → cols a = b.length →
      matrix_mul_run a b = .ok (matrix_mul a b) ∧
      (matrix_mul a b).length = a.length ∧
      (∀ r ∈ matrix_mul a b, r.length = cols b) ∧
      (∀ i < a.length, ∀ j < cols b, ent (matrix_mul a b) i j = mmSpecEntry a b i j)) ∧
    matrix_mul_run [[2], [8]] [[3, 1]] = .ok [[6, 2], [11, 8]] := by
  constructor
  · intro a b ra rb ha hb hab
    refine ⟨?_, length_matrix_mul a b, ?_, ?_⟩
    · simp [matrix_mul_run, List.isEmpty_iff, ha, hb, hab,
        rect_any_short_false a ra, rect_any_short_false b rb]
      exact fun _ x hx => le_of_eq (by rw [ra x hx, hab])
    · intro r hr
      rcases List.mem_map.mp hr with ⟨i, _, rfl⟩
      simp
    · intro i hi j hj
      rw [ent_matrix_mul a b i j hi hj, mmEntry_eq_gfSum, gfSum_foldr]
      rfl
  · rfl

/-- Witness for C3 at the spec's own example. -/
theorem C3_witness :
    matrix_mul_run [[2], [8]] [[3, 1]] = .ok (matrix_mul [[2], [8]] [[3, 1]]) :=
  (C3_matrix_mul_spec.1 [[2], [8]] [[3, 1]] (by decide) (by decide) (by decide)
    (by decide) (by decide)).1

/-- An accumulation loop is the `gfSum` of the mapped index list. -/
theorem foldl_acc_eq_gfSum (g : Nat → Nat) (l : List Nat) :
    l.foldl (fun acc k => add acc (g k)) 0 = gfSum (l.map g) := by
  show _ = (l.map g).foldl add 0
  rw [List.foldl_map]

/-- Row-level closure for the zipped element-wise operations. -/
theorem zipWith_lt16 (f : Nat → Nat → Nat) (hf : ∀ x < 16, ∀ y < 16, f x y < 16) :
    ∀ l1 l2 : List Nat, (∀ v ∈ l1, v < 16) → (∀ v ∈ l2, v < 16) →
      ∀ v ∈ List.zipWith f l1 l2, v < 16 := by
  intro l1
  induction l1 with
  | nil => intro l2 _ _ v hv; simp at hv
  | cons a t ih =>
    intro l2 h1 h2 v hv
    cases l2 with
    | nil => simp at hv
    | cons b t2 =>
      rw [List.zipWith_cons_cons] at hv
      rcases List.mem_cons.mp hv with rfl | hv
      · exact hf a (h1 a (by simp)) b (h2 b (by simp))
      · exact ih t2 (fun v hv => h1 v (by simp [hv])) (fun v hv => h2 v (by simp [hv])) v hv

/-- Matrix-level closure for the zipped element-wise operations. -/
theorem zipWith_mat_lt16 (f : Nat → Nat → Nat) (hf : ∀ x < 16, ∀ y < 16, f x y < 16) :
    ∀ a b : List (List Nat), matBounded a → matBounded b →
      matBounded (List.zipWith (fun ra rb => List.zipWith f ra rb) a b) := by
  intro a
  induction a with
  | nil => intro b _ _ r hr; simp at hr
  | cons ra t ih =>
    intro b hA hB r hr
    cases b with
    | nil => simp at hr
    | cons rb t2 =>
      rw [List.zipWith_cons_cons] at hr
      rcases List.mem_cons.mp hr with rfl | hr
      · exact fun v hv => zipWith_lt16 f hf ra rb (hA ra (by simp)) (hB rb (by simp)) v hv
      · exact ih t2 (fun r hr => hA r (by simp [hr])) (fun r hr => hB r (by simp [hr])) r hr

/-- Claim C8: every scalar operation keeps field elements in `[0,15]`
(for `mul`, `inv`, `div` even unconditionally, by the final 4-bit mask), and
every matrix/vector operation preserves element-wise boundedness. -/
theorem C8_closure :
    (∀ x < 16, neg x < 16) ∧
    (∀ x < 16, ∀ y < 16, add x y < 16) ∧
    (∀ x < 16, ∀ y < 16, sub x y < 16) ∧
    (∀ x y : Nat, mul x y < 16) ∧
    (∀ x : Nat, inv x < 16) ∧
    (∀ x y : Nat, div x y < 16) ∧
    (∀ a b : List (List Nat), matBounded a → matBounded b → matBounded (matrix_add a b)) ∧
    (∀ a b : List (List Nat), matBounded a → matBounded b → matBounded (matrix_sub a b)) ∧
    (∀ a : List (List Nat), matBounded a → matBounded (matrix_neg a)) ∧
    (∀ a b : List (List Nat), matBounded (matrix_mul a b)) ∧
    (∀ (v : List Nat) (m : List (List Nat)), vecBounded (vector_matrix_mul v m)) ∧
    (∀ (m : List (List Nat)) (v : List Nat), vecBounded (matrix_vector_mul m v)) := by
  refine ⟨by decide, add_lt16, by decide, mul_lt16,
    fun x => mul_lt16 _ _, fun x y => mul_lt16 _ _, ?_, ?_, ?_, ?_, ?_, ?_⟩
  · exact fun a b hA hB => zipWith_mat_lt16 add add_lt16 a b hA hB
  · exact fun a b hA hB => zipWith_mat_lt16 sub (by decide) a b hA hB
  · intro a hA r hr
    rcases List.mem_map.mp hr with ⟨r0, hr0, rfl⟩
    intro v hv
    rcases List.mem_map.mp hv with ⟨v0, hv0, rfl⟩
    exact hA r0 hr0 v0 hv0
  · intro a b r hr
    rcases List.mem_map.mp hr with ⟨i, _, rfl⟩
    intro v hv
    rcases List.mem_map.mp hv with ⟨j, _, rfl⟩
    exact mmEntry_lt16 a b i j
  · intro v m x hx
    rcases List.mem_map.mp hx with ⟨j, _, rfl⟩
    rw [foldl_acc_eq_gfSum]
    refine gfSum_lt16 _ ?_
    intro w hw
    rcases List.mem_map.mp hw with ⟨i, _, rfl⟩
    exact mul_lt16 _ _
  · intro m v x hx
    rcases List.mem_map.mp hx with ⟨i, _, rfl⟩
    rw [foldl_acc_eq_gfSum]
    refine gfSum_lt16 _ ?_
    intro w hw
    rcases List.mem_map.mp hw with ⟨k, _, rfl⟩
    exact mul_lt16 _ _

/-- Witness for C8 at a concrete input. -/
theorem C8_witness :
    matBounded [[3, 14]] ∧ matBounded [[5, 2]] ∧ matBounded (matrix_add [[3, 14]] [[5, 2]]) :=
  ⟨by decide, by decide, C8_closure.2.2.2.2.2.2.1 [[3, 14]] [[5, 2]] (by decide) (by decide)⟩

/-- Counterexample to C4: the first argument violates the equal-row-length
invariant (it is ragged), so the pair is shape-incompatible, yet
`matrix_add` passes its checks (which look only at row 0) and returns a
truncated, ragged result instead of panicking. -/
theorem C4_counterexample :
    ¬ rect [[0, 0], [0]] ∧
    matrix_add_run [[0, 0], [0]] [[0, 0], [0, 0]] = Except.ok [[0, 0], [0]] :=
  ⟨by decide, rfl⟩

/-- Claim C4 as amended: the binary operations validate only the dimensions
read off row counts and row 0 (row counts and row-0 column counts for
`matrix_add`/`matrix_sub`, `cols a` against `rows b` for `matrix_mul`, the
corresponding length conditions for the vector products) and panic with a
failed assertion whenever those disagree, before computing; the
equal-row-length invariant itself is not validated, so raggedness below
row 0 can escape the checks. -/
theorem C4_amended_checked_mismatches_panic :
    (∀ a b : List (List Nat), a.length ≠ b.length →
      matrix_add_run a b = .error .assertFail) ∧
    (∀ a b : List (List Nat), a.length = b.length → a ≠ [] → cols a ≠ cols b →
      matrix_add_run a b = .error .assertFail) ∧
    (∀ a b : List (List Nat), a.length ≠ b.length →
      matrix_sub_run a b = .error .assertFail) ∧
    (∀ a b : List (List Nat), a.length = b.length → a ≠ [] → cols a ≠ cols b →
      matrix_sub_run a b = .error .assertFail) ∧
    (∀ a b : List (List Nat), a ≠ [] → cols a ≠ b.length →
      matrix_mul_run a b = .error .assertFail) ∧
    (∀ (v : List Nat) (m : List (List Nat)), v.length ≠ m.length →
      vector_matrix_mul_run v m = .error .assertFail) ∧
    (∀ (m : List (List Nat)) (v : List Nat), m ≠ [] → cols m ≠ v.length →
      matrix_vector_mul_run m v = .error .assertFail) := by
  refine ⟨?_, ?_, ?_, ?_, ?_, ?_, ?_⟩
  · intro a b h; simp [matrix_add_run, h]
  · intro a b h1 h2 h3; simp [matrix_add_run, h1, h2, h3, List.isEmpty_iff]
  · intro a b h; simp [matrix_sub_run, h]
  · intro a b h1 h2 h3; simp [matrix_sub_run, h1, h2, h3, List.isEmpty_iff]
  · intro a b h1 h2; simp [matrix_mul_run, h1, h2, List.isEmpty_iff]
  · intro v m h; simp [vector_matrix_mul_run, h]
  · intro m v h1 h2; simp [matrix_vector_mul_run, h1, h2, List.isEmpty_iff]

/-- Witness for the amended C4 at a concrete input. -/
theorem C4_amended_witness :
    [[1]] ≠ ([] : List (List Nat)) ∧ cols [[1]] ≠ [[2], [3]].length ∧
    matrix_mul_run [[1]] [[2], [3]] = .error .assertFail :=
  ⟨by decide, by decide,
    C4_amended_checked_mismatches_panic.2.2.2.2.1 [[1]] [[2], [3]] (by decide) (by decide)⟩

/-- Counterexample to C10: `matrix_add` called with an empty first matrix and
a non-empty second one panics, but through its failed row-count assertion,
not through an index-out-of-bounds. -/
theorem C10_counterexample :
    matrix_add_run [] [[1]] = Except.error PanicKind.assertFail ∧
    PanicKind.assertFail ≠ PanicKind.indexOOB :=
  ⟨rfl, by decide⟩

/-- Claim C10 as amended: every call of a binary matrix/vector operation in
which a required matrix argument has zero rows panics rather than returning
a result; the panic is the index-out-of-bounds from the unconditional row-0
access whenever the preceding row-count assertion passes (in particular in
the shape-compatible all-empty calls, and always for `matrix_mul` on an
empty `a` and for `matrix_vector_mul` on an empty matrix), and a failed
assertion otherwise. -/
theorem C10_amended_empty_matrix_panics :
    (∀ a b : List (List Nat), a = [] ∨ b = [] → isPanic (matrix_add_run a b) = true) ∧
    (∀ a b : List (List Nat), a = [] ∨ b = [] → isPanic (matrix_sub_run a b) = true) ∧
    (∀ a b : List (List Nat), a = [] ∨ b = [] → isPanic (matrix_mul_run a b) = true) ∧
    (∀ (v : List Nat) (m : List (List Nat)), m = [] →
      isPanic (vector_matrix_mul_run v m) = true) ∧
    (∀ (m : List (List Nat)) (v : List Nat), m = [] →
      isPanic (matrix_vector_mul_run m v) = true) ∧
    matrix_add_run [] [] = .error .indexOOB ∧
    matrix_sub_run [] [] = .error .indexOOB ∧
    (∀ b : List (List Nat), matrix_mul_run [] b = .error .indexOOB) ∧
    vector_matrix_mul_run [] [] = .error .indexOOB ∧
    (∀ v : List Nat, matrix_vector_mul_run [] v = .error .indexOOB) := by
  refine ⟨?_, ?_, ?_, ?_, ?_, rfl, rfl, fun b => rfl, rfl, fun v => rfl⟩
  · rintro a b (rfl | rfl)
    · cases b with
      | nil => rfl
      | cons r t => simp [matrix_add_run, isPanic]
    · cases a with
      | nil => rfl
      | cons r t => simp [matrix_add_run, isPanic]
  · rintro a b (rfl | rfl)
    · cases b with
      | nil => rfl
      | cons r t => simp [matrix_sub_run, isPanic]
    · cases a with
      | nil => rfl
      | cons r t => simp [matrix_sub_run, isPanic]
  · rintro a b (rfl | rfl)
    · rfl
    · cases a with
      | nil => rfl
      | cons r t =>
        by_cases h : cols (r :: t) = ([] : List (List Nat)).length
        · simp [matrix_mul_run, List.isEmpty_iff, h, isPanic]
        · simp only [List.length_nil] at h
          simp [matrix_mul_run, List.isEmpty_iff, h, isPanic]
  · rintro v m rfl
    cases v with
    | nil => rfl
    | cons x t => simp [vector_matrix_mul_run, isPanic]
  · rintro m v rfl
    rfl

/-- Witness for the amended C10 at a concrete input. -/
theorem C10_amended_witness :
    ([] : List (List Nat)) = [] ∧ isPanic (matrix_add_run [] [[1]]) = true :=
  ⟨rfl, C10_amended_empty_matrix_panics.1 [] [[1]] (Or.inl rfl)⟩

/-- Entry-level associativity: the `(i,j)` entry of `(a*b)*c` equals that of
`a*(b*c)`, by distributing `mul` through the accumulated sums, swapping the
two summations, and re-associating each product of field elements. -/
theorem mmEntry_assoc (a b c : List (List Nat))
    (ba : matBounded a) (bb : matBounded b) (bc : matBounded c)
    (ha : a ≠ []) (hab : cols a = b.length)
    (i j : Nat) (hi : i < a.length) (hj : j < cols c) :
    mmEntry (matrix_mul a b) c i j = mmEntry a (matrix_mul b c) i j := by
  rw [mmEntry_eq_gfSum, mmEntry_eq_gfSum, cols_matrix_mul a b ha]
  have h1 : (List.range (cols b)).map
        (fun l => mul (ent (matrix_mul a b) i l) (ent c l j))
      = (List.range (cols b)).map (fun l =>
          gfSum ((List.range (cols a)).map fun k =>
            mul (mul (ent a i k) (ent b k l)) (ent c l j))) := by
    refine List.map_congr_left ?_
    intro l hl
    rw [ent_matrix_mul a b i l hi (List.mem_range.mp hl), mmEntry_eq_gfSum a b i l,
      gfSum_mul_right (ent c l j) (ent_lt16 c bc l j) _ (fun v hv => by
        rcases List.mem_map.mp hv with ⟨k, _, rfl⟩
        exact mul_lt16 _ _),
      List.map_map]
    rfl
  rw [h1, gfSum_swap (List.range (cols b)) (List.range (cols a))
    (fun l k => mul (mul (ent a i k) (ent b k l)) (ent c l j))]
  refine congrArg gfSum (List.map_congr_left ?_)
  intro k hk
  have hk2 : k < b.length := hab ▸ List.mem_range.mp hk
  have h2 : (List.range (cols b)).map (fun l => mul (mul (ent a i k) (ent b k l)) (ent c l j))
      = (List.range (cols b)).map (fun l => mul (ent a i k) (mul (ent b k l) (ent c l j))) := by
    refine List.map_congr_left ?_
    intro l _
    exact mul_assoc16 (ent a i k) (ent_lt16 a ba i k) (ent b k l) (ent_lt16 b bb k l)
      (ent c l j) (ent_lt16 c bc l j)
  rw [h2, show ((List.range (cols b)).map fun l => mul (ent a i k) (mul (ent b k l) (ent c l j)))
      = ((List.range (cols b)).map fun l => mul (ent b k l) (ent c l j)).map (mul (ent a i k)) by
    rw [List.map_map]; rfl,
    ← mul_gfSum_left (ent a i k) (ent_lt16 a ba i k) _ (fun v hv => by
      rcases List.mem_map.mp hv with ⟨l, _, rfl⟩
      exact mul_lt16 _ _),
    ← mmEntry_eq_gfSum b c k j]
  rw [ent_matrix_mul b c k j hk2 hj]

/-- Claim C7: for conformant non-empty rectangular matrices of field
elements, `matrix_mul` is associative. -/
theorem C7_matrix_mul_assoc :
    ∀ a b c : List (List Nat),
      rect a → rect b → rect c →
      matBounded a → matBounded b → matBounded c →
      a ≠ [] → b ≠ [] → c ≠ [] →
      cols a = b.length → cols b = c.length →
      matrix_mul (matrix_mul a b) c = matrix_mul a (matrix_mul b c) := by
  intro a b c ra rb rc ba bb bc ha hb hc hab hbc
  have hlen : (matrix_mul a b).length = a.length := length_matrix_mul a b
  have hcols : cols (matrix_mul b c) = cols c := cols_matrix_mul b c hb
  have LHSdef : matrix_mul (matrix_mul a b) c
      = (List.range a.length).map fun i => (List.range (cols c)).map fun j =>
          mmEntry (matrix_mul a b) c i j := by
    show (List.range (matrix_mul a b).length).map _ = _
    rw [hlen]
  have RHSdef : matrix_mul a (matrix_mul b c)
      = (List.range a.length).map fun i => (List.range (cols c)).map fun j =>
          mmEntry a (matrix_mul b c) i j := by
    show (List.range a.length).map (fun i => (List.range (cols (matrix_mul b c))).map
      fun j => mmEntry a (matrix_mul b c) i j) = _
    rw [hcols]
  rw [LHSdef, RHSdef]
  refine List.map_congr_left ?_
  intro i hi
  refine List.map_congr_left ?_
  intro j hj
  exact mmEntry_assoc a b c ba bb bc ha hab i j (List.mem_range.mp hi) (List.mem_range.mp hj)

/-- Witness for C7 at concrete matrices. -/
theorem C7_witness :
    rect [[2]] ∧ matBounded [[2]] ∧ cols [[2]] = [[3]].length ∧ cols [[3]] = [[7]].length ∧
    matrix_mul (matrix_mul [[2]] [[3]]) [[7]] = matrix_mul [[2]] (matrix_mul [[3]] [[7]]) :=
  ⟨by decide, by decide, by decide, by decide,
    C7_matrix_mul_assoc [[2]] [[3]] [[7]] (by decide) (by decide) (by decide) (by decide)
      (by decide) (by decide) (by decide) (by decide) (by decide) (by decide) (by decide)⟩

end MayoFF
